import Mathlib

/-!
Verification of the joint-angles PD controller
(`include/imitation_game/joint_angles_controller.h`).

Diagonal matrices of doubles are embedded as lists of rationals holding the
diagonal entries; the C++ `int` scalar of `operator/` is embedded as `ℤ` with
C++ truncating division (`Int.tdiv`).  Functions that are implemented in the
header are translated from the source; members that the header only declares
are modelled from the specification and say so in their doc comments.
-/

namespace ImitationGame

/-! ### Generic list helpers -/

/-- Elementwise combination of three lists, truncating to the shortest. -/
def zipWith3 (f : ℚ → ℚ → ℚ → ℚ) : List ℚ → List ℚ → List ℚ → List ℚ
  | a :: as, b :: bs, c :: cs => f a b c :: zipWith3 f as bs cs
  | _, _, _ => []

theorem zipWith3_length (f : ℚ → ℚ → ℚ → ℚ) :
    ∀ (as bs cs : List ℚ),
      (zipWith3 f as bs cs).length = min as.length (min bs.length cs.length)
  | [], [], [] => by simp [zipWith3]
  | [], [], _ :: _ => by simp [zipWith3]
  | [], _ :: _, [] => by simp [zipWith3]
  | [], _ :: _, _ :: _ => by simp [zipWith3]
  | _ :: _, [], [] => by simp [zipWith3]
  | _ :: _, [], _ :: _ => by simp [zipWith3]
  | _ :: _, _ :: _, [] => by simp [zipWith3]
  | a :: as, b :: bs, c :: cs => by
    simp [zipWith3, zipWith3_length f as bs cs, Nat.succ_min_succ]

theorem zipWith3_getD (f : ℚ → ℚ → ℚ → ℚ) :
    ∀ (as bs cs : List ℚ) (i : ℕ), i < as.length → i < bs.length → i < cs.length →
      (zipWith3 f as bs cs).getD i 0 = f (as.getD i 0) (bs.getD i 0) (cs.getD i 0)
  | a :: as, b :: bs, c :: cs, 0, _, _, _ => rfl
  | a :: as, b :: bs, c :: cs, i + 1, ha, hb, hc => by
    simpa [zipWith3] using
      zipWith3_getD f as bs cs i (Nat.lt_of_succ_lt_succ ha)
        (Nat.lt_of_succ_lt_succ hb) (Nat.lt_of_succ_lt_succ hc)

theorem zipWith_getD (f : ℚ → ℚ → ℚ) :
    ∀ (as bs : List ℚ) (i : ℕ), i < as.length → i < bs.length →
      (List.zipWith f as bs).getD i 0 = f (as.getD i 0) (bs.getD i 0)
  | a :: as, b :: bs, 0, _, _ => rfl
  | a :: as, b :: bs, i + 1, ha, hb => by
    simpa [List.zipWith] using
      zipWith_getD f as bs i (Nat.lt_of_succ_lt_succ ha) (Nat.lt_of_succ_lt_succ hb)

theorem map_getD (f : ℚ → ℚ) :
    ∀ (as : List ℚ) (i : ℕ), i < as.length →
      (as.map f).getD i 0 = f (as.getD i 0)
  | a :: as, 0, _ => rfl
  | a :: as, i + 1, ha => by
    simpa [List.map] using map_getD f as i (Nat.lt_of_succ_lt_succ ha)

theorem ext_getD :
    ∀ (as bs : List ℚ), as.length = bs.length →
      (∀ i, i < as.length → as.getD i 0 = bs.getD i 0) → as = bs := by
  intro as
  induction as with
  | nil =>
    intro bs h _
    cases bs with
    | nil => rfl
    | cons b bs => exact absurd h (by simp)
  | cons a as ih =>
    intro bs h hp
    cases bs with
    | nil => exact absurd h (by simp)
    | cons b bs =>
      have h0 : a = b := hp 0 (Nat.succ_pos _)
      have ht : as = bs :=
        ih bs (by simpa using h) (fun i hi => hp (i + 1) (Nat.succ_lt_succ hi))
      rw [h0, ht]

theorem replicate_getD (n : ℕ) (x : ℚ) :
    ∀ i, i < n → (List.replicate n x).getD i 0 = x := by
  induction n with
  | zero => intro i hi; exact absurd hi (Nat.not_lt_zero i)
  | succ n ih =>
    intro i hi
    cases i with
    | zero => rfl
    | succ i => simpa [List.replicate] using ih i (Nat.lt_of_succ_lt_succ hi)

/-! ### Operators overloaded on `Eigen::DiagonalMatrix<double, Eigen::Dynamic>`
(header lines 113–143).  A diagonal matrix is represented by the list of its
diagonal entries. -/

/-- `operator-`: `output_mat.diagonal() = mat_1.diagonal() - mat_2.diagonal()`. -/
def dmSub (mat_1 mat_2 : List ℚ) : List ℚ :=
  List.zipWith (fun a b => a - b) mat_1 mat_2

/-- `operator+`: `output_mat.diagonal() = mat_1.diagonal() + mat_2.diagonal()`. -/
def dmAdd (mat_1 mat_2 : List ℚ) : List ℚ :=
  List.zipWith (fun a b => a + b) mat_1 mat_2

/-- `operator*`: `output_mat.diagonal() = mat_1.toDenseMatrix() * mat_2.diagonal()`.
The dense matrix of `mat_1` has entry `(i, j)` equal to `mat_1.diagonal()(i)`
when `i = j` and `0` otherwise; row `i` of the product is the dot product of
dense row `i` with the diagonal vector of `mat_2`. -/
def dmMul (mat_1 mat_2 : List ℚ) : List ℚ :=
  (List.range mat_1.length).map (fun i =>
    ((List.range mat_1.length).map (fun j =>
      (if i = j then mat_1.getD j 0 else 0) * mat_2.getD j 0)).sum)

/-- `operator/`: `output_mat.diagonal() = mat_1.diagonal() * (1/scaler)` where
`scaler : int`, so `1/scaler` is C++ integer division truncating toward zero. -/
def dmDiv (mat_1 : List ℚ) (scaler : ℤ) : List ℚ :=
  mat_1.map (fun a => a * (((1 : ℤ).tdiv scaler : ℤ) : ℚ))

/-- The elementwise per-joint product the spec describes for step 6:
`proportionalOut ← Kp ⊙ error`. -/
def elementwiseMul (mat_1 mat_2 : List ℚ) : List ℚ :=
  List.zipWith (fun a b => a * b) mat_1 mat_2

theorem dmMul_inner_sum (as bs : List ℚ) (i : ℕ) :
    ∀ n, ((List.range n).map (fun j =>
        (if i = j then as.getD j 0 else 0) * bs.getD j 0)).sum =
      if i < n then as.getD i 0 * bs.getD i 0 else 0 := by
  intro n
  induction n with
  | zero => simp
  | succ n ih =>
    rw [List.range_succ, List.map_append, List.sum_append, ih]
    simp only [List.map_cons, List.map_nil, List.sum_cons, List.sum_nil, add_zero]
    by_cases hin : i < n
    · have hne : i ≠ n := Nat.ne_of_lt hin
      rw [if_pos hin, if_neg hne, zero_mul, add_zero, if_pos (Nat.lt_succ_of_lt hin)]
    · by_cases hieq : i = n
      · subst hieq
        rw [if_neg hin, zero_add, if_pos rfl, if_pos (Nat.lt_succ_self i)]
      · have hns : ¬ i < n + 1 := by
          intro hlt
          rcases Nat.lt_succ_iff_lt_or_eq.mp hlt with h | h
          · exact hin h
          · exact hieq h
        rw [if_neg hin, if_neg hieq, zero_mul, zero_add, if_neg hns]

theorem dmMul_length (mat_1 mat_2 : List ℚ) :
    (dmMul mat_1 mat_2).length = mat_1.length := by
  simp [dmMul]

theorem dmMul_getD (mat_1 mat_2 : List ℚ) (i : ℕ) (hi : i < mat_1.length) :
    (dmMul mat_1 mat_2).getD i 0 = mat_1.getD i 0 * mat_2.getD i 0 := by
  have hmap : (dmMul mat_1 mat_2).getD i 0 =
      ((List.range mat_1.length).map (fun j =>
        (if i = j then mat_1.getD j 0 else 0) * mat_2.getD j 0)).sum := by
    unfold dmMul
    have hlen : i < (List.range mat_1.length).length := by simpa using hi
    have := List.getD_eq_getElem ((List.range mat_1.length).map (fun i =>
      ((List.range mat_1.length).map (fun j =>
        (if i = j then mat_1.getD j 0 else 0) * mat_2.getD j 0)).sum)) 0
        (by simpa using hi)
    rw [this]
    simp
  rw [hmap, dmMul_inner_sum mat_1 mat_2 i mat_1.length]
  simp [hi]

/-! ### Functions implemented inline in the header -/

/-- The loop body of `insertValuesInMatrix` (header lines 51–54): `k` is the
number of remaining iterations, `s` the current vector index and `ms` the
current diagonal index; each iteration performs
`matrix.diagonal()(mat_start_index) = vector.at(i)` and advances both indices. -/
def insertLoop (vector : List ℚ) : ℕ → ℕ → ℕ → List ℚ → List ℚ
  | 0, _, _, matrix => matrix
  | k + 1, s, ms, matrix => insertLoop vector k (s + 1) (ms + 1) (matrix.set ms (vector.getD s 0))

/-- `insertValuesInMatrix` (header lines 48–55): copies
`vector[vec_start_index .. vec_end_index)` onto the diagonal of `matrix`
starting at position `mat_start_index`; the loop runs
`vec_end_index - vec_start_index` times (zero times when
`vec_start_index ≥ vec_end_index`). -/
def insertValuesInMatrix (vector : List ℚ)
    (vec_start_index vec_end_index mat_start_index : ℕ) (matrix : List ℚ) : List ℚ :=
  insertLoop vector (vec_end_index - vec_start_index) vec_start_index mat_start_index matrix

/-- The loop body of `vectorToDiagonalMatrix` (header lines 66–69): writes
`matrix.diagonal()(i) = vector.at(i)` for the remaining `k` indices starting
at `i`. -/
def vtdmLoop (vector : List ℚ) : ℕ → ℕ → List ℚ → List ℚ
  | 0, _, matrix => matrix
  | k + 1, i, matrix => vtdmLoop vector k (i + 1) (matrix.set i (vector.getD i 0))

/-- `vectorToDiagonalMatrix` (header lines 61–70): writes every entry of
`vector` onto the diagonal of `matrix`, positions `0 .. vector.size() - 1`. -/
def vectorToDiagonalMatrix (vector matrix : List ℚ) : List ℚ :=
  vtdmLoop vector vector.length 0 matrix

/-- Modelled from the spec: `diagonalMatrixToVector` is only declared in the
header (line 38).  The spec (§4.4) describes the internal conversions as pure,
order-preserving reshaping of the per-joint representation, so the conversion
reads the diagonal entries out in index order. -/
def diagonalMatrixToVector (matrix : List ℚ) : List ℚ :=
  matrix

/-! ### The controller -/

/-- Error kinds of §7 of the spec, surfaced to the caller as a distinguishable
failure signal. -/
inductive CtrlError where
  | SizeMismatch
  | IndexOutOfRange
  | NotFound
  | InvalidConfiguration
deriving DecidableEq

/-- The data members of `JointAnglesController` (header lines 8–22).  Each
`Eigen::DiagonalMatrix` member is represented by the list of its diagonal
entries; doubles are embedded as rationals. -/
structure JointAnglesController where
  k_p_ : List ℚ
  k_d_ : List ℚ
  max_jt_accn : List ℚ
  min_jt_accn : List ℚ
  curr_position_ : List ℚ
  prev_position_ : List ℚ
  desd_position_ : List ℚ
  error_ : List ℚ
  prev_error_ : List ℚ
  total_joints_size_ : ℕ
  d_t : ℚ
  chest_size_ : ℕ
  left_arm_size_ : ℕ
  right_arm_size_ : ℕ
deriving DecidableEq

/-- Modelled from the spec (§4.3): AccelerationLimiter's pure clamp,
`clamp(value, min, max) = max(min, min(value, max))`. -/
def clampAccel (value mn mx : ℚ) : ℚ :=
  max mn (min value mx)

/-- Modelled from the spec: `limitAccelerations` is only declared in the header
(line 33); §4.4 step 10 clamps each entry of the control output to its joint's
`[minAccel, maxAccel]` bounds elementwise via AccelerationLimiter. -/
def limitAccelerations (values mins maxs : List ℚ) : List ℚ :=
  zipWith3 clampAccel values mins maxs

/-- Modelled from the spec: the body of `updateControlOutput` /
`getControlledJointAngles` is not in the header (declarations only, lines
31 and 83).  §4.4 steps 5–9: `error ← desired − current`,
`proportionalOut ← Kp ⊙ error` (elementwise), `derivative ←
(error − previousError) / dt` (elementwise subtraction, then true scalar
division by the positive constant `dt`), `derivativeOut ← Kd ⊙ derivative`,
`controlOutput ← proportionalOut + derivativeOut`.  `measured` is the
current-position snapshot obtained from the external robot state provider in
step 3; `s.error_` still holds the previous cycle's error (step 2 shifts it
into the history before step 5 overwrites it). -/
def controlOutputUnclamped (s : JointAnglesController) (measured desired : List ℚ) : List ℚ :=
  let error := List.zipWith (fun a b => a - b) desired measured
  let p_out := List.zipWith (fun a b => a * b) s.k_p_ error
  let derivative := (List.zipWith (fun a b => a - b) error s.error_).map (fun x => x / s.d_t)
  let d_out := List.zipWith (fun a b => a * b) s.k_d_ derivative
  List.zipWith (fun a b => a + b) p_out d_out

/-- Modelled from the spec: `getControlledJointAngles` is only declared in the
header (line 83).  §4.4 steps 1–4, 10 and 11: validate the input length
(`SizeMismatch` otherwise), shift position and error history, refresh the
current position from the external provider (`measured`), store the desired
position, compute the new error, clamp the control output and return it in
joint-index order together with the updated controller state. -/
def getControlledJointAngles (s : JointAnglesController) (measured desired : List ℚ) :
    Except CtrlError (List ℚ × JointAnglesController) :=
  if desired.length = s.total_joints_size_ then
    Except.ok
      (limitAccelerations (controlOutputUnclamped s measured desired) s.min_jt_accn s.max_jt_accn,
        { s with
          prev_position_ := s.curr_position_
          prev_error_ := s.error_
          curr_position_ := measured
          desd_position_ := desired
          error_ := List.zipWith (fun a b => a - b) desired measured })
  else
    Except.error CtrlError.SizeMismatch

/-- `getKp` as declared in the header (line 93): `void getKp(const int) const`.
The return type is `void`, embedded as `Unit`; the getter returns no value. -/
def getKp (s : JointAnglesController) (joint_number : ℤ) : Unit :=
  ()

/-- `getKd` as declared in the header (line 94): `void getKd(const int) const`;
return type `void`, embedded as `Unit`. -/
def getKd (s : JointAnglesController) (joint_number : ℤ) : Unit :=
  ()

/-- Modelled from the spec (§4.2): `setKp` is only declared in the header
(line 96); it overwrites the stored Kp gain at the given joint index in
place. -/
def setKp (s : JointAnglesController) (Kp : ℚ) (joint_number : ℕ) : JointAnglesController :=
  { s with k_p_ := s.k_p_.set joint_number Kp }

/-- Modelled from the spec (§4.2): `setKd` is only declared in the header
(line 97); it overwrites the stored Kd gain at the given joint index in
place. -/
def setKd (s : JointAnglesController) (Kd : ℚ) (joint_number : ℕ) : JointAnglesController :=
  { s with k_d_ := s.k_d_.set joint_number Kd }

/-- Modelled from the spec: `setJointsKp` is only declared in the header
(line 102).  §4.2/§7: `setAllKp(values)` fails with `SizeMismatch` unless
`values.length == totalJoints`; otherwise it replaces all Kp gains; on failure
the store is left unmodified (all-or-nothing update). -/
def setJointsKp (s : JointAnglesController) (joints_kp : List ℚ) :
    JointAnglesController × Option CtrlError :=
  if joints_kp.length = s.total_joints_size_ then ({ s with k_p_ := joints_kp }, none)
  else (s, some CtrlError.SizeMismatch)

/-- Modelled from the spec: `setJointsKd` is only declared in the header
(line 103); same contract as `setJointsKp`, for the Kd gains. -/
def setJointsKd (s : JointAnglesController) (joints_kd : List ℚ) :
    JointAnglesController × Option CtrlError :=
  if joints_kd.length = s.total_joints_size_ then ({ s with k_d_ := joints_kd }, none)
  else (s, some CtrlError.SizeMismatch)

/-- Modelled from the spec (§3, §4.1): segments are laid out contiguously in
the fixed order chest, left arm, right arm with no gaps. -/
def segmentSizesInOrder (s : JointAnglesController) : List ℕ :=
  [s.chest_size_, s.left_arm_size_, s.right_arm_size_]

/-- Modelled from the spec (§4.1): a segment's starting offset in the combined
joint vector is the total size of the segments laid out before it. -/
def segmentOffset (s : JointAnglesController) (k : ℕ) : ℕ :=
  ((segmentSizesInOrder s).take k).sum

/-- Modelled from the spec: `getChestIndexAcceleration` is only declared in the
header (line 108); it returns the chest segment's starting offset. -/
def getChestIndexAcceleration (s : JointAnglesController) : ℕ :=
  segmentOffset s 0

/-- Modelled from the spec: `getLeftArmIndexAcceleration` is only declared in
the header (line 109); it returns the left-arm segment's starting offset. -/
def getLeftArmIndexAcceleration (s : JointAnglesController) : ℕ :=
  segmentOffset s 1

/-- Modelled from the spec: `getRightArmIndexAcceleration` is only declared in
the header (line 110); it returns the right-arm segment's starting offset. -/
def getRightArmIndexAcceleration (s : JointAnglesController) : ℕ :=
  segmentOffset s 2

/-- The worked scenario of §8 of the spec: 3 joints (one per segment),
`dt = 0.01`, `Kp = [10,10,10]`, `Kd = [1,1,1]`, `maxAccel = 5` for all joints,
initial position and error history all zero. -/
def workedScenarioState : JointAnglesController where
  k_p_ := [10, 10, 10]
  k_d_ := [1, 1, 1]
  max_jt_accn := [5, 5, 5]
  min_jt_accn := [-5, -5, -5]
  curr_position_ := [0, 0, 0]
  prev_position_ := [0, 0, 0]
  desd_position_ := [0, 0, 0]
  error_ := [0, 0, 0]
  prev_error_ := [0, 0, 0]
  total_joints_size_ := 3
  d_t := 1 / 100
  chest_size_ := 1
  left_arm_size_ := 1
  right_arm_size_ := 1

/-! ### Lemmas about the loop functions -/

theorem set_getD_eq :
    ∀ (as : List ℚ) (i : ℕ) (x : ℚ), i < as.length → (as.set i x).getD i 0 = x
  | a :: as, 0, x, _ => rfl
  | a :: as, i + 1, x, h => by
    simpa [List.set] using set_getD_eq as i x (Nat.lt_of_succ_lt_succ h)
  | [], i, x, h => by simp at h

theorem set_getD_ne :
    ∀ (as : List ℚ) (i j : ℕ) (x : ℚ), i ≠ j → (as.set i x).getD j 0 = as.getD j 0
  | [], _, _, _, _ => rfl
  | a :: as, 0, 0, x, h => absurd rfl h
  | a :: as, 0, j + 1, x, _ => rfl
  | a :: as, i + 1, 0, x, _ => rfl
  | a :: as, i + 1, j + 1, x, h => by
    simpa [List.set] using set_getD_ne as i j x (fun he => h (by rw [he]))

theorem insertLoop_length (vector : List ℚ) :
    ∀ (k s ms : ℕ) (matrix : List ℚ), (insertLoop vector k s ms matrix).length = matrix.length
  | 0, _, _, _ => rfl
  | k + 1, s, ms, matrix => by
    simpa [insertLoop] using
      insertLoop_length vector k (s + 1) (ms + 1) (matrix.set ms (vector.getD s 0))

theorem insertLoop_getD (vector : List ℚ) :
    ∀ (k s ms j : ℕ) (matrix : List ℚ), j < matrix.length →
      (insertLoop vector k s ms matrix).getD j 0 =
        if ms ≤ j ∧ j < ms + k then vector.getD (s + (j - ms)) 0 else matrix.getD j 0
  | 0, s, ms, j, matrix, hj => by
    simp only [insertLoop]
    rw [if_neg (by omega)]
  | k + 1, s, ms, j, matrix, hj => by
    have hj' : j < (matrix.set ms (vector.getD s 0)).length := by simpa using hj
    rw [show insertLoop vector (k + 1) s ms matrix =
        insertLoop vector k (s + 1) (ms + 1) (matrix.set ms (vector.getD s 0)) from rfl,
      insertLoop_getD vector k (s + 1) (ms + 1) j _ hj']
    by_cases h1 : ms + 1 ≤ j ∧ j < ms + 1 + k
    · rw [if_pos h1, if_pos (show ms ≤ j ∧ j < ms + (k + 1) by omega)]
      congr 1
      omega
    · rw [if_neg h1]
      by_cases h2 : j = ms
      · subst h2
        rw [set_getD_eq matrix j (vector.getD s 0) hj,
          if_pos (show j ≤ j ∧ j < j + (k + 1) by omega)]
        congr 1
        omega
      · rw [set_getD_ne matrix ms j (vector.getD s 0) (fun he => h2 he.symm),
          if_neg (by omega)]

theorem vtdmLoop_eq_insertLoop (vector : List ℚ) :
    ∀ (k i : ℕ) (matrix : List ℚ), vtdmLoop vector k i matrix = insertLoop vector k i i matrix
  | 0, _, _ => rfl
  | k + 1, i, matrix => by
    simpa [vtdmLoop, insertLoop] using
      vtdmLoop_eq_insertLoop vector k (i + 1) (matrix.set i (vector.getD i 0))

theorem vectorToDiagonalMatrix_length (vector matrix : List ℚ) :
    (vectorToDiagonalMatrix vector matrix).length = matrix.length := by
  rw [vectorToDiagonalMatrix, vtdmLoop_eq_insertLoop]
  exact insertLoop_length vector vector.length 0 0 matrix

theorem vectorToDiagonalMatrix_getD (vector matrix : List ℚ) (j : ℕ) (hj : j < matrix.length) :
    (vectorToDiagonalMatrix vector matrix).getD j 0 =
      if j < vector.length then vector.getD j 0 else matrix.getD j 0 := by
  rw [vectorToDiagonalMatrix, vtdmLoop_eq_insertLoop,
    insertLoop_getD vector vector.length 0 0 j matrix hj]
  by_cases h : j < vector.length
  · rw [if_pos (show 0 ≤ j ∧ j < 0 + vector.length by omega), if_pos h]
    congr 1
    omega
  · rw [if_neg (by omega), if_neg h]

/-! ### Claims -/

/-- **C1.** The spec's step 7 claims `operator/` performs true scalar division
of each diagonal entry by the positive scalar.  It does not: the source
computes `mat_1.diagonal() * (1/scaler)` with `scaler : int`, so `1/scaler`
is truncating integer division — on the diagonal matrix `[1]` with
`scaler = 2` the operator returns `[0]`, while true division would give
`1/2 ≠ 0` (for `scaler = 1` it happens to agree). -/
theorem dmDiv_truncates_C1 :
    dmDiv [1] 2 = [0] ∧ ((1 : ℚ) / 2 ≠ 0) ∧ dmDiv [1] 1 = [1] := by
  refine ⟨?_, by norm_num, ?_⟩ <;> norm_num [dmDiv, Int.tdiv]

/-- **C2.** The worked scenario of §8: 3 joints, `dt = 0.01`,
`Kp = [10,10,10]`, `Kd = [1,1,1]`, current position `[0,0,0]`, zero error
history; the first call with desired `[1,1,1]` has unclamped control output
`[110,110,110]`, and with `maxAccel = 5` for all joints the returned vector is
`[5,5,5]`. -/
theorem workedScenario_C2 :
    controlOutputUnclamped workedScenarioState [0, 0, 0] [1, 1, 1] = [110, 110, 110] ∧
    (getControlledJointAngles workedScenarioState [0, 0, 0] [1, 1, 1]).map Prod.fst =
      Except.ok [5, 5, 5] := by
  constructor
  · norm_num [controlOutputUnclamped, workedScenarioState]
  · norm_num [getControlledJointAngles, controlOutputUnclamped, workedScenarioState,
      limitAccelerations, zipWith3, clampAccel, Except.map]

/-- **C3.** `operator*` implements the product as the dense matrix of the first
operand times the diagonal vector of the second; for operands of equal size
this equals the spec's elementwise per-joint multiply: the i-th entry of the
result is the product of the operands' i-th diagonal entries. -/
theorem dmMul_refines_elementwise_C3 (mat_1 mat_2 : List ℚ)
    (h : mat_1.length = mat_2.length) :
    dmMul mat_1 mat_2 = elementwiseMul mat_1 mat_2 ∧
    ∀ i, i < mat_1.length →
      (dmMul mat_1 mat_2).getD i 0 = mat_1.getD i 0 * mat_2.getD i 0 := by
  constructor
  · apply ext_getD
    · rw [dmMul_length]
      simp [elementwiseMul, List.length_zipWith, h]
    · intro i hi
      rw [dmMul_length] at hi
      rw [dmMul_getD mat_1 mat_2 i hi, elementwiseMul,
        zipWith_getD (fun a b => a * b) mat_1 mat_2 i hi (h ▸ hi)]
  · intro i hi
    exact dmMul_getD mat_1 mat_2 i hi

theorem dmMul_refines_elementwise_C3_witness :
    dmMul [2, 3] [5, 7] = elementwiseMul [2, 3] [5, 7] ∧ dmMul [2, 3] [5, 7] = [10, 21] :=
  ⟨(dmMul_refines_elementwise_C3 [2, 3] [5, 7] (by norm_num)).1,
   by norm_num [dmMul, List.range_succ]⟩

/-- **C6.** The claim says `setKp(v, i)` then `getKp(i)` returns exactly `v`
and that `getKp`/`getKd` return a double for every valid index.  The header
declares `void getKp(const int) const` and `void getKd(const int) const`: both
getters return nothing, so their result after storing 5 is identical to their
result after storing 7 at the same index even though the two stores differ —
the getter cannot return the stored gain. -/
theorem getKp_returns_void_C6 :
    getKp (setKp workedScenarioState 5 0) 0 = getKp (setKp workedScenarioState 7 0) 0 ∧
    getKd (setKd workedScenarioState 5 0) 0 = getKd (setKd workedScenarioState 7 0) 0 ∧
    setKp workedScenarioState 5 0 ≠ setKp workedScenarioState 7 0 := by
  refine ⟨rfl, rfl, ?_⟩
  intro h
  have hp := congrArg JointAnglesController.k_p_ h
  norm_num [setKp, workedScenarioState, List.set] at hp

/-- **C7.** `setJointsKp` (the spec's `setAllKp`) with an input sequence whose
length differs from `totalJoints` fails with `SizeMismatch` and returns the
store unchanged — every stored Kp gain is untouched; the same holds for
`setJointsKd`. -/
theorem setJointsKp_sizeMismatch_C7 (s : JointAnglesController) (v : List ℚ)
    (h : v.length ≠ s.total_joints_size_) :
    setJointsKp s v = (s, some CtrlError.SizeMismatch) ∧
    setJointsKd s v = (s, some CtrlError.SizeMismatch) := by
  constructor <;> simp [setJointsKp, setJointsKd, h]

theorem setJointsKp_sizeMismatch_C7_witness :
    setJointsKp workedScenarioState [1, 2] = (workedScenarioState, some CtrlError.SizeMismatch) ∧
    setJointsKd workedScenarioState [1, 2] = (workedScenarioState, some CtrlError.SizeMismatch) :=
  setJointsKp_sizeMismatch_C7 workedScenarioState [1, 2] (by norm_num [workedScenarioState])

/-- **C9.** For every configuration, the segment-offset accessors return
`chestOffset() = 0`, `leftArmOffset() = chestSize` and
`rightArmOffset() = chestSize + leftArmSize`. -/
theorem segmentOffsets_C9 (s : JointAnglesController) :
    getChestIndexAcceleration s = 0 ∧
    getLeftArmIndexAcceleration s = s.chest_size_ ∧
    getRightArmIndexAcceleration s = s.chest_size_ + s.left_arm_size_ := by
  refine ⟨rfl, ?_, ?_⟩ <;>
    simp [getLeftArmIndexAcceleration, getRightArmIndexAcceleration, segmentOffset,
      segmentSizesInOrder]

/-- **C10.** `insertValuesInMatrix` writes exactly the diagonal entries
`mat_start_index .. mat_start_index + (vec_end_index - vec_start_index) - 1`,
setting entry `mat_start_index + k` to `vector(vec_start_index + k)`, leaves
every other diagonal entry unchanged and preserves the matrix dimension. -/
theorem insertValuesInMatrix_frame_C10 (vector matrix : List ℚ)
    (vec_start_index vec_end_index mat_start_index : ℕ)
    (hse : vec_start_index ≤ vec_end_index)
    (hev : vec_end_index ≤ vector.length)
    (hm : mat_start_index + (vec_end_index - vec_start_index) ≤ matrix.length) :
    (insertValuesInMatrix vector vec_start_index vec_end_index mat_start_index matrix).length
        = matrix.length ∧
    ∀ j, j < matrix.length →
      (insertValuesInMatrix vector vec_start_index vec_end_index mat_start_index matrix).getD j 0 =
        if mat_start_index ≤ j ∧ j < mat_start_index + (vec_end_index - vec_start_index)
        then vector.getD (vec_start_index + (j - mat_start_index)) 0
        else matrix.getD j 0 := by
  constructor
  · exact insertLoop_length vector _ _ _ matrix
  · intro j hj
    exact insertLoop_getD vector (vec_end_index - vec_start_index) vec_start_index
      mat_start_index j matrix hj

theorem insertValuesInMatrix_frame_C10_witness :
    (insertValuesInMatrix [1, 2, 3, 4] 1 3 0 [9, 9, 9]).length = 3 ∧
    (insertValuesInMatrix [1, 2, 3, 4] 1 3 0 [9, 9, 9]).getD 0 0 = 2 ∧
    (insertValuesInMatrix [1, 2, 3, 4] 1 3 0 [9, 9, 9]).getD 2 0 = 9 := by
  obtain ⟨hlen, hpt⟩ := insertValuesInMatrix_frame_C10 [1, 2, 3, 4] [9, 9, 9] 1 3 0
    (by norm_num) (by norm_num) (by norm_num)
  refine ⟨by rw [hlen]; rfl, ?_, ?_⟩
  · rw [hpt 0 (by norm_num)]
    norm_num
  · rw [hpt 2 (by norm_num)]
    norm_num

/-- **C8 counterexample.** With matrix dimension (`totalJoints`) 2, the round
trip of the length-1 sequence `[5]` through `vectorToDiagonalMatrix` and
`diagonalMatrixToVector` yields `[5, 0]`, not the original `[5]`: the
conversion back reads out all `totalJoints` diagonal entries. -/
theorem roundTrip_counterexample_C8 :
    diagonalMatrixToVector (vectorToDiagonalMatrix [5] [0, 0]) = [5, 0] ∧
    diagonalMatrixToVector (vectorToDiagonalMatrix [5] [0, 0]) ≠ [5] := by
  constructor <;> norm_num [diagonalMatrixToVector, vectorToDiagonalMatrix, vtdmLoop]

/-- **C8 (amended).** For every sequence whose length is at most the matrix
dimension, the round trip preserves the matrix dimension and reproduces the
original sequence entry by entry as a prefix; when the sequence length equals
the matrix dimension (`totalJoints`) the round trip reproduces the original
sequence exactly. -/
theorem roundTrip_C8 (vector matrix : List ℚ) (h : vector.length ≤ matrix.length) :
    (diagonalMatrixToVector (vectorToDiagonalMatrix vector matrix)).length = matrix.length ∧
    (∀ j, j < vector.length →
      (diagonalMatrixToVector (vectorToDiagonalMatrix vector matrix)).getD j 0 =
        vector.getD j 0) ∧
    (vector.length = matrix.length →
      diagonalMatrixToVector (vectorToDiagonalMatrix vector matrix) = vector) := by
  unfold diagonalMatrixToVector
  refine ⟨vectorToDiagonalMatrix_length vector matrix, ?_, ?_⟩
  · intro j hj
    rw [vectorToDiagonalMatrix_getD vector matrix j (lt_of_lt_of_le hj h), if_pos hj]
  · intro heq
    apply ext_getD
    · rw [vectorToDiagonalMatrix_length, heq]
    · intro j hj
      rw [vectorToDiagonalMatrix_length] at hj
      rw [vectorToDiagonalMatrix_getD vector matrix j hj, if_pos (by omega)]

theorem roundTrip_C8_witness :
    diagonalMatrixToVector (vectorToDiagonalMatrix [3, 4] [0, 0]) = [3, 4] :=
  (roundTrip_C8 [3, 4] [0, 0] (by norm_num)).2.2 (by norm_num)

/-! ### The control cycle: clamping and first-cycle behaviour -/

theorem limitAccelerations_getD (values mins maxs : List ℚ) (i : ℕ)
    (h1 : i < values.length) (h2 : i < mins.length) (h3 : i < maxs.length) :
    (limitAccelerations values mins maxs).getD i 0 =
      clampAccel (values.getD i 0) (mins.getD i 0) (maxs.getD i 0) :=
  zipWith3_getD clampAccel values mins maxs i h1 h2 h3

theorem controlOutputUnclamped_length (s : JointAnglesController) (measured desired : List ℚ)
    (hkp : s.k_p_.length = s.total_joints_size_)
    (hkd : s.k_d_.length = s.total_joints_size_)
    (hmeas : measured.length = s.total_joints_size_)
    (hdes : desired.length = s.total_joints_size_)
    (herr : s.error_.length = s.total_joints_size_) :
    (controlOutputUnclamped s measured desired).length = s.total_joints_size_ := by
  simp [controlOutputUnclamped, List.length_zipWith, List.length_map, hkp, hkd, hmeas, hdes, herr]

theorem controlOutputUnclamped_getD (s : JointAnglesController) (measured desired : List ℚ)
    (i : ℕ) (h1 : i < desired.length) (h2 : i < measured.length)
    (h3 : i < s.k_p_.length) (h4 : i < s.k_d_.length) (h5 : i < s.error_.length) :
    (controlOutputUnclamped s measured desired).getD i 0 =
      s.k_p_.getD i 0 * (desired.getD i 0 - measured.getD i 0) +
      s.k_d_.getD i 0 *
        (((desired.getD i 0 - measured.getD i 0) - s.error_.getD i 0) / s.d_t) := by
  have herrL : i < (List.zipWith (fun a b => a - b) desired measured).length := by
    rw [List.length_zipWith]; omega
  have hderL : i < ((List.zipWith (fun a b => a - b)
      (List.zipWith (fun a b => a - b) desired measured) s.error_).map
      (fun x => x / s.d_t)).length := by
    rw [List.length_map, List.length_zipWith, List.length_zipWith]; omega
  have hpoutL : i < (List.zipWith (fun a b => a * b) s.k_p_
      (List.zipWith (fun a b => a - b) desired measured)).length := by
    rw [List.length_zipWith, List.length_zipWith]; omega
  have hdoutL : i < (List.zipWith (fun a b => a * b) s.k_d_
      ((List.zipWith (fun a b => a - b)
        (List.zipWith (fun a b => a - b) desired measured) s.error_).map
        (fun x => x / s.d_t))).length := by
    rw [List.length_zipWith, List.length_map, List.length_zipWith, List.length_zipWith]; omega
  simp only [controlOutputUnclamped]
  rw [zipWith_getD _ _ _ i hpoutL hdoutL,
    zipWith_getD _ _ _ i h3 herrL,
    zipWith_getD _ _ _ i h4 hderL,
    map_getD _ _ i (by rw [List.length_zipWith, List.length_zipWith]; omega),
    zipWith_getD _ _ _ i herrL h5,
    zipWith_getD _ _ _ i h1 h2]

/-- **C4.** For every valid configuration (consistent lengths,
`minAccel ≤ maxAccel` per joint), every entry of the vector returned by
`getControlledJointAngles` lies within that joint's `[minAccel, maxAccel]`
bounds, and whenever the unclamped control output exceeds `maxAccel` (or is
below `minAccel`) the returned entry equals exactly the respective bound. -/
theorem clamp_bounds_C4 (s : JointAnglesController) (measured desired out : List ℚ)
    (s' : JointAnglesController)
    (hkp : s.k_p_.length = s.total_joints_size_)
    (hkd : s.k_d_.length = s.total_joints_size_)
    (hmin : s.min_jt_accn.length = s.total_joints_size_)
    (hmax : s.max_jt_accn.length = s.total_joints_size_)
    (hmeas : measured.length = s.total_joints_size_)
    (herr : s.error_.length = s.total_joints_size_)
    (hbounds : ∀ i, i < s.total_joints_size_ →
      s.min_jt_accn.getD i 0 ≤ s.max_jt_accn.getD i 0)
    (hok : getControlledJointAngles s measured desired = Except.ok (out, s')) :
    ∀ i, i < s.total_joints_size_ →
      (s.min_jt_accn.getD i 0 ≤ out.getD i 0 ∧ out.getD i 0 ≤ s.max_jt_accn.getD i 0) ∧
      (s.max_jt_accn.getD i 0 < (controlOutputUnclamped s measured desired).getD i 0 →
        out.getD i 0 = s.max_jt_accn.getD i 0) ∧
      ((controlOutputUnclamped s measured desired).getD i 0 < s.min_jt_accn.getD i 0 →
        out.getD i 0 = s.min_jt_accn.getD i 0) := by
  by_cases hd : desired.length = s.total_joints_size_
  case neg =>
    rw [getControlledJointAngles, if_neg hd] at hok
    exact absurd hok (by simp)
  case pos =>
  rw [getControlledJointAngles, if_pos hd] at hok
  injection hok with hok1
  injection hok1 with houts hstate
  have hout := houts.symm
  intro i hi
  have hulen : (controlOutputUnclamped s measured desired).length = s.total_joints_size_ :=
    controlOutputUnclamped_length s measured desired hkp hkd hmeas hd herr
  have hgd : out.getD i 0 =
      clampAccel ((controlOutputUnclamped s measured desired).getD i 0)
        (s.min_jt_accn.getD i 0) (s.max_jt_accn.getD i 0) := by
    rw [hout]
    exact limitAccelerations_getD _ _ _ i (by omega) (by omega) (by omega)
  have hmm : s.min_jt_accn.getD i 0 ≤ s.max_jt_accn.getD i 0 := hbounds i hi
  rw [hgd]
  unfold clampAccel
  refine ⟨⟨le_max_left _ _, max_le hmm (min_le_right _ _)⟩, ?_, ?_⟩
  · intro hv
    rw [min_eq_right (le_of_lt hv), max_eq_right hmm]
  · intro hv
    rw [min_eq_left (le_of_lt (lt_of_lt_of_le hv hmm)), max_eq_left (le_of_lt hv)]

/-- The controller state after the worked scenario's first call: history
shifted, current and desired positions stored, new error recorded. -/
def workedScenarioNext : JointAnglesController :=
  { workedScenarioState with
    desd_position_ := [1, 1, 1]
    error_ := [1, 1, 1] }

theorem clamp_bounds_C4_witness :
    ((workedScenarioState.min_jt_accn.getD 0 0 ≤ ([5, 5, 5] : List ℚ).getD 0 0 ∧
      ([5, 5, 5] : List ℚ).getD 0 0 ≤ workedScenarioState.max_jt_accn.getD 0 0) ∧
     (workedScenarioState.max_jt_accn.getD 0 0 <
        (controlOutputUnclamped workedScenarioState [0, 0, 0] [1, 1, 1]).getD 0 0 →
      ([5, 5, 5] : List ℚ).getD 0 0 = workedScenarioState.max_jt_accn.getD 0 0) ∧
     ((controlOutputUnclamped workedScenarioState [0, 0, 0] [1, 1, 1]).getD 0 0 <
        workedScenarioState.min_jt_accn.getD 0 0 →
      ([5, 5, 5] : List ℚ).getD 0 0 = workedScenarioState.min_jt_accn.getD 0 0)) :=
  clamp_bounds_C4 workedScenarioState [0, 0, 0] [1, 1, 1] [5, 5, 5] workedScenarioNext
    rfl rfl rfl rfl rfl rfl
    (by intro i hi; have hi3 : i < 3 := hi; interval_cases i <;> norm_num [workedScenarioState])
    (by norm_num [getControlledJointAngles, controlOutputUnclamped, workedScenarioState,
      workedScenarioNext, limitAccelerations, zipWith3, clampAccel])
    0 (by norm_num [workedScenarioState])

/-- A 1-joint configuration whose acceleration bounds exclude zero:
`[minAccel, maxAccel] = [-2, -1]`. -/
def negBoundState : JointAnglesController where
  k_p_ := [10]
  k_d_ := [1]
  max_jt_accn := [-1]
  min_jt_accn := [-2]
  curr_position_ := [0]
  prev_position_ := [0]
  desd_position_ := [0]
  error_ := [0]
  prev_error_ := [0]
  total_joints_size_ := 1
  d_t := 1 / 100
  chest_size_ := 1
  left_arm_size_ := 0
  right_arm_size_ := 0

/-- **C5 counterexample.** On a first cycle with desired = current = `[0]` and
zero error history, the PD terms are all zero, but step 10 still clamps the
output to the joint's bounds `[-2, -1]`: the controller returns `[-1]`, not
the all-zero vector. -/
theorem zeroDesired_counterexample_C5 :
    (getControlledJointAngles negBoundState [0] [0]).map Prod.fst = Except.ok [-1] ∧
    ([-1] : List ℚ) ≠ [0] := by
  constructor
  · norm_num [getControlledJointAngles, controlOutputUnclamped, negBoundState,
      limitAccelerations, zipWith3, clampAccel, Except.map]
  · simp

/-- **C5 (amended).** If on the first control cycle the desired position equals
the measured current position, the stored error history is all zero, and every
joint's acceleration bounds contain zero (`minAccel ≤ 0 ≤ maxAccel`), then
`getControlledJointAngles` returns the all-zero vector of length
`totalJoints`. -/
theorem zeroError_C5 (s : JointAnglesController) (measured : List ℚ)
    (hkp : s.k_p_.length = s.total_joints_size_)
    (hkd : s.k_d_.length = s.total_joints_size_)
    (hmin : s.min_jt_accn.length = s.total_joints_size_)
    (hmax : s.max_jt_accn.length = s.total_joints_size_)
    (hmeas : measured.length = s.total_joints_size_)
    (herr : s.error_ = List.replicate s.total_joints_size_ 0)
    (hbounds : ∀ i, i < s.total_joints_size_ →
      s.min_jt_accn.getD i 0 ≤ 0 ∧ 0 ≤ s.max_jt_accn.getD i 0) :
    (getControlledJointAngles s measured measured).map Prod.fst =
      Except.ok (List.replicate s.total_joints_size_ 0) := by
  have herrL : s.error_.length = s.total_joints_size_ := by
    rw [herr, List.length_replicate]
  have hulen := controlOutputUnclamped_length s measured measured hkp hkd hmeas hmeas herrL
  have hout : limitAccelerations (controlOutputUnclamped s measured measured)
      s.min_jt_accn s.max_jt_accn = List.replicate s.total_joints_size_ 0 := by
    apply ext_getD
    · rw [limitAccelerations, zipWith3_length, hulen, hmin, hmax, List.length_replicate]
      omega
    · intro i hi
      rw [limitAccelerations, zipWith3_length, hulen, hmin, hmax] at hi
      have hi' : i < s.total_joints_size_ := by omega
      rw [limitAccelerations, zipWith3_getD _ _ _ _ i (by omega) (by omega) (by omega)]
      have hu : (controlOutputUnclamped s measured measured).getD i 0 = 0 := by
        rw [controlOutputUnclamped_getD s measured measured i (by omega) (by omega)
          (by omega) (by omega) (by omega), herr, replicate_getD _ _ i hi']
        ring
      rw [hu, replicate_getD _ _ i hi']
      unfold clampAccel
      rw [min_eq_left (hbounds i hi').2, max_eq_right (hbounds i hi').1]
  rw [getControlledJointAngles, if_pos hmeas]
  exact congrArg Except.ok hout

theorem zeroError_C5_witness :
    (getControlledJointAngles workedScenarioState [0, 0, 0] [0, 0, 0]).map Prod.fst =
      Except.ok (List.replicate 3 0) :=
  zeroError_C5 workedScenarioState [0, 0, 0] rfl rfl rfl rfl rfl rfl
    (by intro i hi; have hi3 : i < 3 := hi; interval_cases i <;> norm_num [workedScenarioState])

end ImitationGame
